import Mathlib

/-
  Verification of the `bloom` DDD toolkit against its natural-language
  specification.

  The development shallowly embeds the Python sources:
  - `bloom/sara/entities.py` / `bloom/domain/aggregates.py`: entities and
    aggregates with identity-based equality and an owned event buffer;
  - `bloom/events/events.py` / `bloom/events/event_bus.py`: domain events and
    the synchronous / asynchronous handler registries;
  - `bloom/repositories/abc.py`, `bloom/repositories/memory.py`,
    `bloom/prajnan/repositories.py`: repositories and the tracking decorator;
  - `bloom/service_layer/uow.py`: the unit-of-work scope.

  Python runtime classes are modelled by `PyType` (a class name together with
  the names of all its ancestors, i.e. its method resolution order), so that
  `isinstance` checks and exact-type dictionary dispatch can be embedded
  faithfully.  Mutable shared objects (aggregates referenced both from a
  repository's store and its tracked set) are modelled with an explicit heap
  of references.  Identifiers and error values are modelled as naturals.
-/

/-- A Python runtime class: its own name and the names of every class in its
method resolution order (itself included).  `isinstance(obj, cls)` holds when
`cls`'s name appears among the ancestors of `type(obj)`. -/
structure PyType where
  name : Nat
  ancestors : List Nat
deriving DecidableEq

/-- Model of `isinstance(obj, cls)` for an object whose runtime class is `obj_ty`. -/
def isinstance (obj_ty : PyType) (cls : PyType) : Bool :=
  obj_ty.ancestors.contains cls.name

/-- An entity from `bloom/sara/entities.py`: a runtime class and an identity
value (identities modelled as naturals). -/
structure Entity where
  ty : PyType
  id : Nat
deriving DecidableEq

/-- Model of the bare method `Entity.__eq__` from `bloom/sara/entities.py`:
the guard `isinstance(other, Entity)` always holds here (every modelled value
is an entity); the result is
`isinstance(other, type(self)) and self.id == other.id`.  This is only the
method body; the observable `==` operator, including CPython's
reflected-subclass dispatch, is `Entity.pyEqOp` below. -/
def Entity.eq (self other : Entity) : Bool :=
  isinstance other.ty self.ty && self.id == other.id

/-- Model of CPython's `==` operator on two entities (`do_richcompare`): when
the right operand's class is a proper subclass of the left operand's, the
right operand's `__eq__` is tried first (reflected priority); since
`Entity.__eq__` always returns a bool — never `NotImplemented` — that first
call decides the outcome.  `!=` is its negation (`__ne__` is not overridden
and `__eq__` never returns `NotImplemented`). -/
def Entity.pyEqOp (e1 e2 : Entity) : Bool :=
  if e1.ty ≠ e2.ty ∧ isinstance e2.ty e1.ty = true then Entity.eq e2 e1
  else Entity.eq e1 e2

/-- Model of `Entity.__hash__` from `bloom/sara/entities.py`:
`hash((type(self), self.id))`, modelled as the pair of the exact class name
and the identity. -/
def Entity.pyHash (self : Entity) : Nat × Nat :=
  (self.ty.name, self.id)

/-- A domain event from `bloom/events/events.py`: a runtime class (events are
subclassed; the bus dispatches on the exact class), the generated `event_id`
and the owning entity's `entity_id`. -/
structure Event where
  ty : PyType
  event_id : Nat
  entity_id : Nat
deriving DecidableEq

/-- Event construction.  In `bloom/events/events.py` the `event_id` field has
`default_factory=uuid.uuid4`; the generator of fresh unique identifiers is
modelled as an injective supply (a counter), capturing the spec's
"generated unique id".  Returns the event and the advanced supply. -/
def Event.new (ty : PyType) (supply : Nat) (entity_id : Nat) : Event × Nat :=
  ({ ty := ty, event_id := supply, entity_id := entity_id }, supply + 1)

/-- An aggregate from `bloom/domain/aggregates.py`: an entity with a version
counter and the owned buffer of pending events. -/
structure Aggregate where
  ty : PyType
  id : Nat
  version : Nat
  events : List Event
deriving DecidableEq

/-- Model of `Aggregate.pending_events`: a copy of the pending-event buffer. -/
def Aggregate.pending_events (a : Aggregate) : List Event :=
  a.events

/-- Model of `Aggregate.raise_event` from `bloom/domain/aggregates.py`: sets the
event's `entity_id` to the aggregate's own identity, then appends it to the
buffer. -/
def Aggregate.raise_event (a : Aggregate) (e : Event) : Aggregate :=
  { a with events := a.events ++ [{ e with entity_id := a.id }] }

/-- Model of `Aggregate.flush_events` from `bloom/domain/aggregates.py`: returns a copy
of the pending events and clears the buffer. -/
def Aggregate.flush_events (a : Aggregate) : List Event × Aggregate :=
  (a.pending_events, { a with events := [] })

/-- Raising a list of events in sequence. -/
def Aggregate.raise_all (a : Aggregate) (es : List Event) : Aggregate :=
  es.foldl Aggregate.raise_event a

/-- The modelled class `Entity` itself. -/
def entityClass : PyType := ⟨0, [0]⟩

/-- A modelled entity subclass `Base(Entity)`. -/
def baseClass : PyType := ⟨1, [1, 0]⟩

/-- A modelled entity subclass `Derived(Base)` (cf. `SpecialBatch(Batch)` in
`tests/repositories/test_repositories.py`). -/
def derivedClass : PyType := ⟨2, [2, 1, 0]⟩

/-- An instance of `Base` with identity 1. -/
def eBase : Entity := ⟨baseClass, 1⟩

/-- An instance of `Derived` with the same identity 1. -/
def eDerived : Entity := ⟨derivedClass, 1⟩

theorem entity_pyEqOp_exact (e1 e2 : Entity)
    (hrefl2 : e2.ty.name ∈ e2.ty.ancestors)
    (hacyclic : e1.ty ≠ e2.ty →
      ¬(e1.ty.name ∈ e2.ty.ancestors ∧ e2.ty.name ∈ e1.ty.ancestors)) :
    Entity.pyEqOp e1 e2 = ((e1.ty == e2.ty) && (e1.id == e2.id)) := by
  by_cases hty : e1.ty = e2.ty
  · have hcond : ¬(e1.ty ≠ e2.ty ∧ isinstance e2.ty e1.ty = true) :=
      fun hc => hc.1 hty
    simp only [Entity.pyEqOp]
    rw [if_neg hcond]
    simp [Entity.eq, isinstance, hty, hrefl2]
  · by_cases hsub : isinstance e2.ty e1.ty = true
    · have hmem1 : e1.ty.name ∈ e2.ty.ancestors := by
        simpa [isinstance] using hsub
      have hnot : e2.ty.name ∉ e1.ty.ancestors := fun hmem2 =>
        hacyclic hty ⟨hmem1, hmem2⟩
      simp only [Entity.pyEqOp]
      rw [if_pos ⟨hty, hsub⟩]
      simp [Entity.eq, isinstance, hnot, hty]
    · have hcond : ¬(e1.ty ≠ e2.ty ∧ isinstance e2.ty e1.ty = true) :=
        fun hc => hsub hc.2
      have hsub' : isinstance e2.ty e1.ty = false := by
        cases h : isinstance e2.ty e1.ty
        · rfl
        · exact absurd h hsub
      simp only [Entity.pyEqOp]
      rw [if_neg hcond]
      simp [Entity.eq, hsub', hty]

/-- C5: at the level of Python's `==`/`!=` operators, entity equality is
exact-type and symmetric.  Although the bare `Entity.__eq__` method is
subclass-tolerant through `isinstance(other, type(self))`, CPython's
rich-comparison dispatch tries the reflected (proper-subclass) operand's
method first, and that call takes the subclass as `type(self)` — so for
entities of different concrete classes sharing one identity both `e1 == e2`
and `e2 == e1` are False, hence `e1 != e2`; equality holds exactly when the
concrete runtime classes are identical and the identities are equal, and the
operator is symmetric.  The hypotheses state that the two classes are well
formed Python classes: each is among its own ancestors, and two distinct
classes are never ancestors of each other. -/
theorem C5_entity_operator_equality (e1 e2 : Entity)
    (hrefl1 : e1.ty.name ∈ e1.ty.ancestors)
    (hrefl2 : e2.ty.name ∈ e2.ty.ancestors)
    (hacyclic : e1.ty ≠ e2.ty →
      ¬(e1.ty.name ∈ e2.ty.ancestors ∧ e2.ty.name ∈ e1.ty.ancestors)) :
    (e1.ty ≠ e2.ty → e1.id = e2.id → Entity.pyEqOp e1 e2 = false)
    ∧ (Entity.pyEqOp e1 e2 = true ↔ (e1.ty = e2.ty ∧ e1.id = e2.id))
    ∧ Entity.pyEqOp e1 e2 = Entity.pyEqOp e2 e1 := by
  have h12 := entity_pyEqOp_exact e1 e2 hrefl2 hacyclic
  have h21 := entity_pyEqOp_exact e2 e1 hrefl1
    (fun hne hand => hacyclic (Ne.symm hne) ⟨hand.2, hand.1⟩)
  refine ⟨?_, ?_, ?_⟩
  · intro hne _
    rw [h12]
    simp [hne]
  · rw [h12]
    simp
  · rw [h12, h21]
    by_cases hty : e1.ty = e2.ty
    · by_cases hid : e1.id = e2.id
      · simp [hty, hid]
      · have hid2 : ¬(e2.id = e1.id) := fun h => hid h.symm
        simp [hty, hid, hid2]
    · have hty2 : ¬(e2.ty = e1.ty) := fun h => hty h.symm
      have hb1 : (e1.ty == e2.ty) = false := beq_eq_false_iff_ne.mpr hty
      have hb2 : (e2.ty == e1.ty) = false := beq_eq_false_iff_ne.mpr hty2
      rw [hb1, hb2]
      simp

/-- Witness for C5 at the concrete pair `eBase`/`eDerived` (different concrete
classes, `Derived` a proper subclass of `Base`, same identity 1): both
operator directions are False, the equality characterization holds, and the
operator is symmetric. -/
theorem C5_entity_operator_witness :
    (eBase.ty.name ∈ eBase.ty.ancestors
      ∧ eDerived.ty.name ∈ eDerived.ty.ancestors
      ∧ (eBase.ty ≠ eDerived.ty →
          ¬(eBase.ty.name ∈ eDerived.ty.ancestors
            ∧ eDerived.ty.name ∈ eBase.ty.ancestors)))
    ∧ ((eBase.ty ≠ eDerived.ty → eBase.id = eDerived.id →
          Entity.pyEqOp eBase eDerived = false)
      ∧ (Entity.pyEqOp eBase eDerived = true
          ↔ (eBase.ty = eDerived.ty ∧ eBase.id = eDerived.id))
      ∧ Entity.pyEqOp eBase eDerived = Entity.pyEqOp eDerived eBase) :=
  ⟨⟨by decide, by decide, by decide⟩,
    C5_entity_operator_equality eBase eDerived (by decide) (by decide)
      (by decide)⟩

theorem raise_all_events (a : Aggregate) (es : List Event) :
    (Aggregate.raise_all a es).events
      = a.events ++ es.map (fun e => { e with entity_id := a.id })
      ∧ (Aggregate.raise_all a es).id = a.id := by
  induction es generalizing a with
  | nil => simp [Aggregate.raise_all]
  | cons e es ih =>
      have h := ih (Aggregate.raise_event a e)
      simp only [Aggregate.raise_all, List.foldl_cons] at h ⊢
      simp [Aggregate.raise_event] at h ⊢
      exact ⟨h.1, h.2⟩

/-- C6: after raising the events `es` on an aggregate, `flush_events` returns
the previously raised events exactly once and in raise order (each stamped
with the aggregate's identity), the buffer is cleared, and a second
`flush_events` with no intervening `raise_event` returns the empty list. -/
theorem C6_flush_events_drains_once (a : Aggregate) (es : List Event) :
    (Aggregate.flush_events (Aggregate.raise_all a es)).1
      = a.events ++ es.map (fun e => { e with entity_id := a.id })
      ∧ ((Aggregate.flush_events (Aggregate.raise_all a es)).2).events = []
      ∧ (Aggregate.flush_events
          ((Aggregate.flush_events (Aggregate.raise_all a es)).2)).1 = [] := by
  refine ⟨?_, ?_, ?_⟩
  · simpa [Aggregate.flush_events, Aggregate.pending_events] using
      (raise_all_events a es).1
  · simp [Aggregate.flush_events]
  · simp [Aggregate.flush_events, Aggregate.pending_events]

/-- Association-list model of a Python `dict` (insertion-ordered):
`d[k] = v` overwrites in place when the key is present and appends at the end
otherwise, exactly as a Python dict orders its entries. -/
def dictSet {K α : Type} [DecidableEq K] (d : List (K × α)) (k : K) (v : α) :
    List (K × α) :=
  match d with
  | [] => [(k, v)]
  | p :: rest => if p.1 = k then (k, v) :: rest else p :: dictSet rest k v

/-- Model of `dict.get(k)`: the value at `k`, or the absent value. -/
def dictGet {K α : Type} [DecidableEq K] (d : List (K × α)) (k : K) : Option α :=
  match d with
  | [] => none
  | p :: rest => if p.1 = k then some p.2 else dictGet rest k

/-- Model of `dict.pop(k, None)`: removes the key when present; no error when absent. -/
def dictPop {K α : Type} [DecidableEq K] (d : List (K × α)) (k : K) :
    List (K × α) :=
  match d with
  | [] => []
  | p :: rest => if p.1 = k then rest else p :: dictPop rest k

theorem dictGet_dictSet_self {K α : Type} [DecidableEq K]
    (d : List (K × α)) (k : K) (v : α) :
    dictGet (dictSet d k v) k = some v := by
  induction d with
  | nil => simp [dictSet, dictGet]
  | cons p rest ih =>
      by_cases hpk : p.1 = k
      · simp [dictSet, dictGet, hpk]
      · simp [dictSet, dictGet, hpk, ih]

theorem dictGet_dictSet_ne {K α : Type} [DecidableEq K]
    (d : List (K × α)) (k k' : K) (v : α) (hne : k' ≠ k) :
    dictGet (dictSet d k v) k' = dictGet d k' := by
  induction d with
  | nil => simp [dictSet, dictGet, Ne.symm hne]
  | cons p rest ih =>
      by_cases hpk : p.1 = k
      · simp [dictSet, dictGet, hpk, hne, Ne.symm hne]
      · by_cases hpk' : p.1 = k'
        · simp [dictSet, dictGet, hpk, hpk', hne]
        · simp [dictSet, dictGet, hpk, hpk', ih]

/-- A reference to a shared mutable Python object. -/
abbrev Ref := Nat

/-- A heap object: a plain entity or an aggregate. -/
inductive Obj where
  | ent (e : Entity)
  | agg (a : Aggregate)
deriving DecidableEq

/-- The runtime class of a heap object. -/
def Obj.ty : Obj → PyType
  | .ent e => e.ty
  | .agg a => a.ty

/-- The identity of a heap object. -/
def Obj.id : Obj → Nat
  | .ent e => e.id
  | .agg a => a.id

/-- The heap: shared mutable entity/aggregate objects addressed by reference. -/
abbrev Heap := List (Ref × Obj)

/-- Heap lookup. -/
def heapGet (h : Heap) (r : Ref) : Option Obj :=
  dictGet h r

/-- Heap update (in-place mutation of the object behind `r`). -/
def heapSet (h : Heap) (r : Ref) (o : Obj) : Heap :=
  dictSet h r o

/-- The key under which a Python `set` stores an entity: `Entity.__hash__` is
`hash((type(self), self.id))` and two same-hash entities compare equal, so
membership collapses objects with the same exact class name and identity. -/
def Obj.setKey (o : Obj) : Nat × Nat :=
  (o.ty.name, o.id)

/-- Model of `self._tracked.add(obj)` for the object behind `r`: skipped when a member
with the same set key is already tracked (Python set semantics), appended
otherwise. -/
def trackedInsert (h : Heap) (tracked : List Ref) (r : Ref) : List Ref :=
  match heapGet h r with
  | none => tracked
  | some o =>
      if tracked.any (fun r2 =>
          match heapGet h r2 with
          | some o2 => o2.setKey == o.setKey
          | none => false) then
        tracked
      else tracked ++ [r]

/-- A record of one invocation of a wrapped repository's operations, used to
state the pure-delegation claims (each operation of the wrapper must invoke
the corresponding base operation exactly once with the same argument). -/
inductive RepoCall where
  | addCall (r : Ref)
  | getCall (k : Nat)
  | removeCall (k : Nat)
  | listCall
deriving DecidableEq

/-- The wrapped base repository handed to `TrackingRepository` in
`bloom/repositories/abc.py`, instantiated with the in-memory dict storage of
the sources and instrumented with a log of the operations invoked on it. -/
structure BaseRepo where
  entities : List (Nat × Ref)
  calls : List RepoCall
deriving DecidableEq

/-- Base `add`: store under the entity's identity (read from the heap). -/
def BaseRepo.add (h : Heap) (b : BaseRepo) (r : Ref) : BaseRepo :=
  let k := match heapGet h r with | some o => o.id | none => 0
  { entities := dictSet b.entities k r, calls := b.calls ++ [.addCall r] }

/-- Base `get`: the stored entity or the absent value. -/
def BaseRepo.get (b : BaseRepo) (k : Nat) : BaseRepo × Option Ref :=
  ({ b with calls := b.calls ++ [.getCall k] }, dictGet b.entities k)

/-- Base `remove`: delete when present, no error when absent. -/
def BaseRepo.remove (b : BaseRepo) (k : Nat) : BaseRepo :=
  { entities := dictPop b.entities k, calls := b.calls ++ [.removeCall k] }

/-- Base `list`: every stored entity. -/
def BaseRepo.list (b : BaseRepo) : BaseRepo × List Ref :=
  ({ b with calls := b.calls ++ [.listCall] }, b.entities.map (·.2))

/-- Model of `TrackingRepository` from `bloom/repositories/abc.py`: a tracked set of
entity references plus the wrapped repository. -/
structure TrackingRepository where
  _tracked : List Ref
  _repo : BaseRepo
deriving DecidableEq

/-- A fresh tracking repository over a fresh base repository. -/
def TrackingRepository.empty : TrackingRepository :=
  { _tracked := [], _repo := { entities := [], calls := [] } }

/-- The `tracked` property: `self._tracked.copy()`.  The model has value
semantics, so the returned snapshot is by construction a copy that later
mutation of the caller's list cannot connect back to the repository. -/
def TrackingRepository.tracked (t : TrackingRepository) : List Ref :=
  t._tracked

/-- Model of `TrackingRepository.add`: track the entity, then delegate to the wrapped
repository. -/
def TrackingRepository.add (h : Heap) (t : TrackingRepository) (r : Ref) :
    TrackingRepository :=
  { _tracked := trackedInsert h t._tracked r, _repo := t._repo.add h r }

/-- Model of `TrackingRepository.get`: delegate, and track the result when found. -/
def TrackingRepository.get (h : Heap) (t : TrackingRepository) (k : Nat) :
    TrackingRepository × Option Ref :=
  let (b, res) := t._repo.get k
  match res with
  | none => ({ t with _repo := b }, none)
  | some r => ({ _tracked := trackedInsert h t._tracked r, _repo := b }, some r)

/-- Model of `TrackingRepository.remove`: pure delegation to the wrapped repository. -/
def TrackingRepository.remove (t : TrackingRepository) (k : Nat) :
    TrackingRepository :=
  { t with _repo := t._repo.remove k }

/-- Model of `TrackingRepository.list`: pure delegation to the wrapped repository. -/
def TrackingRepository.list (t : TrackingRepository) :
    TrackingRepository × List Ref :=
  let (b, res) := t._repo.list
  ({ t with _repo := b }, res)

/-- Model of `AsyncTrackingRepository.remove` from `bloom/repositories/abc.py` executes
`await self.remove(entity_id)` — it awaits itself, not `self._repo.remove`.
Modelled with fuel: `none` means the call has not returned after `fuel`
recursive awaits. -/
def AsyncTrackingRepository.removeFuel :
    Nat → TrackingRepository → Nat → Option TrackingRepository
  | 0, _, _ => none
  | fuel + 1, t, k => AsyncTrackingRepository.removeFuel fuel t k

/-- C3: the synchronous tracking operations `remove` and `list` purely
delegate — exactly one invocation of the corresponding base operation, with
the same argument, returning the base result, tracked set untouched — but the
asynchronous `remove` recurses on itself forever: for every amount of fuel it
has not returned, and in particular it never invokes the wrapped repository. -/
theorem C3_delegation_and_async_remove_recursion :
    (∀ (t : TrackingRepository) (k : Nat),
        (t.remove k)._repo.calls = t._repo.calls ++ [RepoCall.removeCall k]
        ∧ (t.remove k)._repo.entities = dictPop t._repo.entities k
        ∧ (t.remove k)._tracked = t._tracked)
    ∧ (∀ t : TrackingRepository,
        t.list.2 = t._repo.entities.map (·.2)
        ∧ t.list.1._repo.calls = t._repo.calls ++ [RepoCall.listCall]
        ∧ t.list.1._tracked = t._tracked)
    ∧ (∀ (fuel : Nat) (t : TrackingRepository) (k : Nat),
        AsyncTrackingRepository.removeFuel fuel t k = none) := by
  refine ⟨fun t k => ?_, fun t => ?_, fun fuel t k => ?_⟩
  · exact ⟨rfl, rfl, rfl⟩
  · exact ⟨rfl, rfl, rfl⟩
  · induction fuel with
    | zero => rfl
    | succ n ih => simpa [AsyncTrackingRepository.removeFuel] using ih

/-- The in-memory repository of `bloom/repositories/memory.py` (entities held
by value; no aliasing is involved in its claims).  Its public `add`/`get`
wrappers come from the `AbstractRepository` base class, which is absent from
the sources. -/
structure InMemoryRepository where
  _entities : List (Nat × Entity)
deriving DecidableEq

/-- A fresh in-memory repository. -/
def InMemoryRepository.empty : InMemoryRepository :=
  ⟨[]⟩

/-- Model of `InMemoryRepository._add`: `self._entities[entity.id] = entity`. -/
def InMemoryRepository._add (d : InMemoryRepository) (e : Entity) :
    InMemoryRepository :=
  ⟨dictSet d._entities e.id e⟩

/-- Model of `InMemoryRepository._get`: `self._entities.get(entity_id)`. -/
def InMemoryRepository._get (d : InMemoryRepository) (k : Nat) : Option Entity :=
  dictGet d._entities k

/-- Public `add`.  Modelled from the spec: the `AbstractRepository` base class
holding the public wrappers is missing from the sources; per the spec's
repository contract ("`add(entity)` inserts/overwrites by identity") the
wrapper stores through the in-source template method `_add`. -/
def InMemoryRepository.add (d : InMemoryRepository) (e : Entity) :
    InMemoryRepository :=
  d._add e

/-- Public `get`.  Modelled from the spec: as for `add`, the wrapper returns
the entity or the absent value through the in-source template method `_get`. -/
def InMemoryRepository.get (d : InMemoryRepository) (k : Nat) : Option Entity :=
  d._get k

/-- Model of `InMemoryRepository.remove` from `bloom/repositories/memory.py`: the
override's whole body is `return` — the store is left untouched. -/
def InMemoryRepository.remove (d : InMemoryRepository) (_k : Nat) :
    InMemoryRepository :=
  d

/-- The in-memory repository of `bloom/prajnan/repositories.py`, whose four
operations are all present in the sources. -/
structure PrajnanInMemoryRepository where
  _entities : List (Nat × Entity)
deriving DecidableEq

/-- A fresh prajnan in-memory repository. -/
def PrajnanInMemoryRepository.empty : PrajnanInMemoryRepository :=
  ⟨[]⟩

/-- Model of `add`: `self._entities[entity.id] = entity`. -/
def PrajnanInMemoryRepository.add (d : PrajnanInMemoryRepository) (e : Entity) :
    PrajnanInMemoryRepository :=
  ⟨dictSet d._entities e.id e⟩

/-- Model of `get`: `self._entities.get(entity_id)`. -/
def PrajnanInMemoryRepository.get (d : PrajnanInMemoryRepository) (k : Nat) :
    Option Entity :=
  dictGet d._entities k

/-- Model of `remove`: `self._entities.pop(entity_id, None)` — deletes when present and,
thanks to the `None` default, raises nothing when absent (the model is total
either way). -/
def PrajnanInMemoryRepository.remove (d : PrajnanInMemoryRepository) (k : Nat) :
    PrajnanInMemoryRepository :=
  ⟨dictPop d._entities k⟩

/-- A sample entity with identity 5. -/
def entA : Entity := ⟨baseClass, 5⟩

/-- C4: the claim fails on `bloom/repositories/memory.py`, whose `remove` is a
placeholder that returns without deleting: after `add(entA)` then
`remove(entA.id)`, `get(entA.id)` still returns the entity — contradicting the
repository's own test `test_can_remove_entity`.  The sibling implementation in
`bloom/prajnan/repositories.py` satisfies every part of the claim at the same
inputs: add-then-get returns the entity, remove-then-get is absent, and
removing an absent identity leaves the store as it was (and raises nothing). -/
theorem C4_memory_remove_is_noop :
    (((InMemoryRepository.empty.add entA).remove entA.id).get entA.id
        = some entA)
    ∧ ((InMemoryRepository.empty.add entA).get entA.id = some entA)
    ∧ ((PrajnanInMemoryRepository.empty.add entA).get entA.id = some entA)
    ∧ (((PrajnanInMemoryRepository.empty.add entA).remove entA.id).get entA.id
        = none)
    ∧ (PrajnanInMemoryRepository.empty.remove 99
        = PrajnanInMemoryRepository.empty) := by
  decide

/-- The modelled built-in class `BaseException`. -/
def baseExceptionClass : PyType := ⟨8, [8]⟩

/-- The modelled built-in class `Exception(BaseException)` — the class named
by the `except Exception` clause of `AbstractUnitOfWork.__call__`. -/
def exceptionClass : PyType := ⟨9, [9, 8]⟩

/-- The modelled built-in class `KeyboardInterrupt(BaseException)`: a raisable
error that does NOT derive from `Exception`. -/
def keyboardInterruptClass : PyType := ⟨10, [10, 8]⟩

/-- The modelled built-in class `ValueError(Exception)`. -/
def valueErrorClass : PyType := ⟨11, [11, 9, 8]⟩

/-- A Python exception value raised by a scope body or a handler: its runtime
class (errors are caught by `except` clauses through `isinstance`) and an
opaque payload distinguishing instances. -/
structure PyErr where
  ty : PyType
  payload : Nat
deriving DecidableEq

/-- One pass of `collect_events` over the tracked references of a single
repository: for each tracked entity, `isinstance(entity, Aggregate)` selects
the aggregates, whose `flush_events` result is appended to the collected list
while the cleared aggregate is written back to the shared heap. -/
def drainTracked (h : Heap) (rs : List Ref) : Heap × List Event :=
  match rs with
  | [] => (h, [])
  | r :: rest =>
      match heapGet h r with
      | some (Obj.agg a) =>
          let (evs, a2) := a.flush_events
          let (h2, evs2) := drainTracked (heapSet h r (Obj.agg a2)) rest
          (h2, evs ++ evs2)
      | _ => drainTracked h rest

/-- Model of `collect_events`'s outer loop: every registered repository in registration
order, threading the heap. -/
def collectRepos (h : Heap) (repos : List TrackingRepository) :
    Heap × List Event :=
  match repos with
  | [] => (h, [])
  | repo :: rest =>
      let (h1, evs1) := drainTracked h repo.tracked
      let (h2, evs2) := collectRepos h1 rest
      (h2, evs1 ++ evs2)

/-- The state of an `AbstractUnitOfWork` from `bloom/service_layer/uow.py`,
instantiated at the in-memory variant: the shared heap of aggregate objects,
the auto-registered tracking repositories (in assignment order), the optional
event bus modelled by its received-events log, the `committed` flag of
`AbstractMemoryUnitOfWork`, and an instrumentation counter of `rollback()`
invocations. -/
structure UoWState where
  heap : Heap
  _repositories : List TrackingRepository
  _event_bus : Option (List Event)
  committed : Bool
  rollbackCalls : Nat
deriving DecidableEq

/-- Model of `AbstractUnitOfWork.collect_events`: walk every tracked repository, walk
every tracked entity, and drain each aggregate's pending events into one
list. -/
def UoWState.collect_events (u : UoWState) : UoWState × List Event :=
  let (h, evs) := collectRepos u.heap u._repositories
  ({ u with heap := h }, evs)

/-- Model of `AbstractUnitOfWork._publish_events`: `if self._event_bus:` hand every
event of the list to the bus, in order; a no-op when no bus is configured. -/
def UoWState._publish_events (u : UoWState) (event_list : List Event) :
    UoWState :=
  match u._event_bus with
  | none => u
  | some received => { u with _event_bus := some (received ++ event_list) }

/-- Model of `AbstractMemoryUnitOfWork.commit`: sets the `committed` flag. -/
def UoWState.commit (u : UoWState) : UoWState :=
  { u with committed := true }

/-- A `rollback()` invocation (the in-memory override's body is `pass`; the
model counts the call itself so that "invoked exactly once" is statable). -/
def UoWState.rollback (u : UoWState) : UoWState :=
  { u with rollbackCalls := u.rollbackCalls + 1 }

/-- Model of `AbstractUnitOfWork.__call__`: run the body; when it raises an
error matched by the `except Exception` clause, invoke `rollback` and re-raise
it; an error outside the `Exception` hierarchy (e.g. `KeyboardInterrupt`) is
not caught, so it propagates with no rollback; otherwise collect events and,
when some were collected, publish them. -/
def uowCall (body : UoWState → UoWState × Option PyErr) (u : UoWState) :
    UoWState × Option PyErr :=
  match body u with
  | (u1, some exc) =>
      if isinstance exc.ty exceptionClass then (u1.rollback, some exc)
      else (u1, some exc)
  | (u1, none) =>
      let (u2, collected_events) := u1.collect_events
      if collected_events.isEmpty then (u2, none)
      else (u2._publish_events collected_events, none)

/-- The pending events of the aggregate behind `r` (empty for plain entities
and dangling references). -/
def pendingOf (h : Heap) (r : Ref) : List Event :=
  match heapGet h r with
  | some (Obj.agg a) => a.events
  | _ => []

/-- Every reference tracked by some registered repository, in registration
and tracking-insertion order. -/
def UoWState.allTracked (u : UoWState) : List Ref :=
  (u._repositories.map TrackingRepository.tracked).flatten

theorem heapGet_heapSet_self (h : Heap) (r : Ref) (o : Obj) :
    heapGet (heapSet h r o) r = some o :=
  dictGet_dictSet_self h r o

theorem heapGet_heapSet_ne (h : Heap) (r r' : Ref) (o : Obj) (hne : r' ≠ r) :
    heapGet (heapSet h r o) r' = heapGet h r' :=
  dictGet_dictSet_ne h r r' o hne

theorem drainTracked_append (h : Heap) (rs1 rs2 : List Ref) :
    drainTracked h (rs1 ++ rs2)
      = ((drainTracked (drainTracked h rs1).1 rs2).1,
         (drainTracked h rs1).2 ++ (drainTracked (drainTracked h rs1).1 rs2).2) := by
  induction rs1 generalizing h with
  | nil => simp [drainTracked]
  | cons r rest ih =>
      cases hr : heapGet h r with
      | none => simp [drainTracked, hr, ih]
      | some o =>
          cases o with
          | ent e => simp [drainTracked, hr, ih]
          | agg a => simp [drainTracked, hr, Aggregate.flush_events, ih]

theorem collectRepos_eq_drainTracked (h : Heap) (repos : List TrackingRepository) :
    collectRepos h repos
      = drainTracked h (repos.map TrackingRepository.tracked).flatten := by
  induction repos generalizing h with
  | nil => simp [collectRepos, drainTracked]
  | cons repo rest ih =>
      simp [collectRepos, List.map_cons, List.flatten_cons, drainTracked_append,
        ih]

theorem drainTracked_heapGet (h : Heap) (rs : List Ref) (r : Ref) :
    heapGet (drainTracked h rs).1 r = heapGet h r
    ∨ ∃ a : Aggregate,
        heapGet (drainTracked h rs).1 r = some (Obj.agg a) ∧ a.events = [] := by
  induction rs generalizing h with
  | nil => exact Or.inl rfl
  | cons r0 rest ih =>
      cases hr0 : heapGet h r0 with
      | none => simpa [drainTracked, hr0] using ih h
      | some o =>
          cases o with
          | ent e => simpa [drainTracked, hr0] using ih h
          | agg a =>
              have step :
                  (drainTracked h (r0 :: rest)).1
                    = (drainTracked (heapSet h r0 (Obj.agg { a with events := [] })) rest).1 := by
                simp [drainTracked, hr0, Aggregate.flush_events]
              rw [step]
              rcases ih (heapSet h r0 (Obj.agg { a with events := [] })) with hsame | hdr
              · by_cases hrr : r = r0
                · subst hrr
                  refine Or.inr ⟨{ a with events := [] }, ?_, rfl⟩
                  rw [hsame, heapGet_heapSet_self]
                · rw [hsame, heapGet_heapSet_ne h r0 r _ hrr]
                  exact Or.inl rfl
              · exact Or.inr hdr

theorem drainTracked_drains (h : Heap) (rs : List Ref) (r : Ref) (hr : r ∈ rs) :
    ∀ a : Aggregate,
      heapGet (drainTracked h rs).1 r = some (Obj.agg a) → a.events = [] := by
  induction rs generalizing h with
  | nil => cases hr
  | cons r0 rest ih =>
      by_cases hmem : r ∈ rest
      · intro a ha
        cases hr0 : heapGet h r0 with
        | none =>
            refine ih h hmem a ?_
            simpa [drainTracked, hr0] using ha
        | some o =>
            cases o with
            | ent e =>
                refine ih h hmem a ?_
                simpa [drainTracked, hr0] using ha
            | agg a0 =>
                refine ih (heapSet h r0 (Obj.agg { a0 with events := [] })) hmem a ?_
                simpa [drainTracked, hr0, Aggregate.flush_events] using ha
      · have hrr : r = r0 := by
          rcases List.mem_cons.mp hr with h1 | h1
          · exact h1
          · exact absurd h1 hmem
        subst hrr
        intro a ha
        cases hr0 : heapGet h r with
        | none =>
            rcases drainTracked_heapGet h rest r with hsame | ⟨a2, ha2, he2⟩
            · rw [show (drainTracked h (r :: rest)).1 = (drainTracked h rest).1 by
                simp [drainTracked, hr0]] at ha
              rw [hsame] at ha
              exact absurd ha (by simp [hr0])
            · rw [show (drainTracked h (r :: rest)).1 = (drainTracked h rest).1 by
                simp [drainTracked, hr0]] at ha
              rw [ha2] at ha
              cases ha
              exact he2
        | some o =>
            cases o with
            | ent e =>
                rcases drainTracked_heapGet h rest r with hsame | ⟨a2, ha2, he2⟩
                · rw [show (drainTracked h (r :: rest)).1 = (drainTracked h rest).1 by
                    simp [drainTracked, hr0]] at ha
                  rw [hsame] at ha
                  rw [hr0] at ha
                  cases ha
                · rw [show (drainTracked h (r :: rest)).1 = (drainTracked h rest).1 by
                    simp [drainTracked, hr0]] at ha
                  rw [ha2] at ha
                  cases ha
                  exact he2
            | agg a0 =>
                have step :
                    (drainTracked h (r :: rest)).1
                      = (drainTracked (heapSet h r (Obj.agg { a0 with events := [] })) rest).1 := by
                  simp [drainTracked, hr0, Aggregate.flush_events]
                rw [step] at ha
                rcases drainTracked_heapGet
                    (heapSet h r (Obj.agg { a0 with events := [] })) rest r with
                  hsame | ⟨a2, ha2, he2⟩
                · rw [hsame, heapGet_heapSet_self] at ha
                  cases ha
                  rfl
                · rw [ha2] at ha
                  cases ha
                  exact he2

theorem drainTracked_events_nodup (h : Heap) (rs : List Ref) (hnd : rs.Nodup) :
    (drainTracked h rs).2 = rs.flatMap (pendingOf h) := by
  induction rs generalizing h with
  | nil => simp [drainTracked]
  | cons r0 rest ih =>
      have hr0mem : r0 ∉ rest := (List.nodup_cons.mp hnd).1
      have hndr : rest.Nodup := (List.nodup_cons.mp hnd).2
      cases hr0 : heapGet h r0 with
      | none => simp [drainTracked, hr0, ih h hndr, pendingOf]
      | some o =>
          cases o with
          | ent e => simp [drainTracked, hr0, ih h hndr, pendingOf]
          | agg a =>
              have hcong :
                  rest.flatMap (pendingOf (heapSet h r0 (Obj.agg { a with events := [] })))
                    = rest.flatMap (pendingOf h) := by
                have : ∀ r ∈ rest,
                    pendingOf (heapSet h r0 (Obj.agg { a with events := [] })) r
                      = pendingOf h r := by
                  intro r hrmem
                  have hne : r ≠ r0 := fun hEq => hr0mem (hEq ▸ hrmem)
                  simp [pendingOf, heapGet_heapSet_ne h r0 r _ hne]
                simp only [List.flatMap]
                rw [List.map_congr_left this]
              simp [drainTracked, hr0, Aggregate.flush_events,
                Aggregate.pending_events, ih _ hndr, hcong, pendingOf]

theorem uowCall_clean (body : UoWState → UoWState × Option PyErr)
    (u u1 : UoWState) (hbody : body u = (u1, none)) :
    uowCall body u
      = (if (u1.collect_events.2).isEmpty then (u1.collect_events.1, none)
         else ((u1.collect_events.1)._publish_events (u1.collect_events.2),
               none)) := by
  simp only [uowCall, hbody]

theorem collect_events_fields (u : UoWState) :
    (u.collect_events.1).committed = u.committed
    ∧ (u.collect_events.1).rollbackCalls = u.rollbackCalls
    ∧ (u.collect_events.1)._event_bus = u._event_bus
    ∧ (u.collect_events.1).heap = (collectRepos u.heap u._repositories).1
    ∧ u.collect_events.2 = (collectRepos u.heap u._repositories).2 := by
  simp [UoWState.collect_events]

theorem publish_events_fields (u : UoWState) (evs : List Event) :
    (u._publish_events evs).committed = u.committed
    ∧ (u._publish_events evs).rollbackCalls = u.rollbackCalls
    ∧ (u._publish_events evs).heap = u.heap
    ∧ (u._publish_events evs)._event_bus
        = u._event_bus.map (fun received => received ++ evs) := by
  cases hbus : u._event_bus with
  | none => simp [UoWState._publish_events, hbus]
  | some received => simp [UoWState._publish_events, hbus]

/-- C1 (amended): on scope exit without exception the unit of work does NOT
invoke `commit` — the in-memory `committed` flag stays exactly as the body
left it, commit being the body's own responsibility — and it does not invoke
`rollback` nor raise; it collects events by draining the pending events of
every tracked Aggregate in every registered tracking repository into one list
(in registration/tracking order when the tracked references are distinct) and
extends the received log of the registered bus by exactly that list (a no-op
when no bus is configured). -/
theorem C1_clean_exit_publishes_without_commit
    (body : UoWState → UoWState × Option PyErr) (u u1 : UoWState)
    (hbody : body u = (u1, none)) :
    (uowCall body u).2 = none
    ∧ (uowCall body u).1.committed = u1.committed
    ∧ (uowCall body u).1.rollbackCalls = u1.rollbackCalls
    ∧ (uowCall body u).1._event_bus
        = u1._event_bus.map (fun received => received ++ u1.collect_events.2)
    ∧ (∀ r ∈ u1.allTracked, ∀ a : Aggregate,
        heapGet (uowCall body u).1.heap r = some (Obj.agg a) → a.events = [])
    ∧ (u1.allTracked.Nodup →
        u1.collect_events.2 = u1.allTracked.flatMap (pendingOf u1.heap)) := by
  obtain ⟨hc, hr, hb, hh, he⟩ := collect_events_fields u1
  have hheap : (uowCall body u).1.heap
      = (collectRepos u1.heap u1._repositories).1 := by
    rw [uowCall_clean body u u1 hbody]
    by_cases hempty : (u1.collect_events.2).isEmpty
    · simp [hempty, hh]
    · simp [hempty, (publish_events_fields u1.collect_events.1 _).2.2.1, hh]
  refine ⟨?_, ?_, ?_, ?_, ?_, ?_⟩
  · rw [uowCall_clean body u u1 hbody]
    by_cases hempty : (u1.collect_events.2).isEmpty <;> simp [hempty]
  · rw [uowCall_clean body u u1 hbody]
    by_cases hempty : (u1.collect_events.2).isEmpty
    · simp [hempty, hc]
    · simp [hempty, (publish_events_fields u1.collect_events.1 _).1, hc]
  · rw [uowCall_clean body u u1 hbody]
    by_cases hempty : (u1.collect_events.2).isEmpty
    · simp [hempty, hr]
    · simp [hempty, (publish_events_fields u1.collect_events.1 _).2.1, hr]
  · rw [uowCall_clean body u u1 hbody]
    by_cases hempty : (u1.collect_events.2).isEmpty
    · have hnil : u1.collect_events.2 = [] := List.isEmpty_iff.mp hempty
      simp [hempty, hb, hnil, Option.map_id']
    · simp [hempty, (publish_events_fields u1.collect_events.1 _).2.2.2, hb]
  · intro r hrmem a ha
    rw [hheap, collectRepos_eq_drainTracked] at ha
    exact drainTracked_drains u1.heap _ r hrmem a ha
  · intro hnd
    rw [he, collectRepos_eq_drainTracked]
    exact drainTracked_events_nodup u1.heap _ hnd

/-- The modelled class `Aggregate(Entity)`. -/
def aggregateClass : PyType := ⟨3, [3, 0]⟩

/-- A modelled aggregate subclass `Product(Aggregate)`. -/
def productClass : PyType := ⟨4, [4, 3, 0]⟩

/-- A modelled domain-event subclass of `Event`. -/
def allocatedClass : PyType := ⟨5, [5]⟩

/-- A pending domain event already stamped with its aggregate's identity 7. -/
def evDemo : Event := ⟨allocatedClass, 42, 7⟩

/-- An aggregate (identity 7) with one pending event. -/
def aggDemo : Aggregate := ⟨productClass, 7, 0, [evDemo]⟩

/-- A unit of work mid-scope: the aggregate lives behind heap reference 0, is
stored and tracked by the single registered tracking repository, a bus is
configured with an empty received log, and the body has not called commit. -/
def uowDemo : UoWState :=
  { heap := [(0, Obj.agg aggDemo)]
  , _repositories := [{ _tracked := [0], _repo := { entities := [(7, 0)], calls := [] } }]
  , _event_bus := some []
  , committed := false
  , rollbackCalls := 0 }

/-- C1 counterexample: a scope whose body completes without exception and
without calling commit.  Scope exit publishes the tracked aggregate's pending
event to the bus, yet the in-memory `committed` flag is still false — so exit
did NOT invoke `commit` (`AbstractMemoryUnitOfWork.commit` would have set it),
refuting "scope exit invokes commit, then collects, then publishes". -/
theorem C1_counterexample_commit_not_invoked :
    (uowCall (fun u => (u, none)) uowDemo).2 = none
    ∧ (uowCall (fun u => (u, none)) uowDemo).1._event_bus = some [evDemo]
    ∧ (uowCall (fun u => (u, none)) uowDemo).1.committed = false := by
  decide

/-- Witness for the amended C1 at the concrete scope `uowDemo` with an
identity body. -/
theorem C1_clean_exit_witness :
    ((fun u => (u, none)) uowDemo = (uowDemo, (none : Option PyErr)))
    ∧ ((uowCall (fun u => (u, none)) uowDemo).2 = none
      ∧ (uowCall (fun u => (u, none)) uowDemo).1.committed = uowDemo.committed
      ∧ (uowCall (fun u => (u, none)) uowDemo).1.rollbackCalls
          = uowDemo.rollbackCalls
      ∧ (uowCall (fun u => (u, none)) uowDemo).1._event_bus
          = uowDemo._event_bus.map
              (fun received => received ++ uowDemo.collect_events.2)
      ∧ (∀ r ∈ uowDemo.allTracked, ∀ a : Aggregate,
          heapGet (uowCall (fun u => (u, none)) uowDemo).1.heap r
            = some (Obj.agg a) → a.events = [])
      ∧ (uowDemo.allTracked.Nodup →
          uowDemo.collect_events.2
            = uowDemo.allTracked.flatMap (pendingOf uowDemo.heap))) :=
  ⟨rfl, C1_clean_exit_publishes_without_commit (fun u => (u, none))
    uowDemo uowDemo rfl⟩

/-- A raised `ValueError` instance (derives from `Exception`). -/
def excValueError : PyErr := ⟨valueErrorClass, 3⟩

/-- A raised `KeyboardInterrupt` instance: an exception that does NOT derive
from `Exception`, so the scope's `except Exception` clause does not match
it. -/
def excKeyboardInterrupt : PyErr := ⟨keyboardInterruptClass, 0⟩

/-- C2 counterexample: a scope body raising `KeyboardInterrupt`.  The clause
`except Exception` in `AbstractUnitOfWork.__call__` does not match it, so the
error propagates to the caller WITHOUT rollback being invoked (the rollback
counter stays 0) — refuting "for every scope whose body raises an exception,
rollback is invoked exactly once"; no events reach the bus on this path
either. -/
theorem C2_counterexample_base_exception_no_rollback :
    (uowCall (fun u => (u, some excKeyboardInterrupt)) uowDemo).2
        = some excKeyboardInterrupt
    ∧ (uowCall (fun u => (u, some excKeyboardInterrupt)) uowDemo).1.rollbackCalls
        = 0
    ∧ (uowCall (fun u => (u, some excKeyboardInterrupt)) uowDemo).1._event_bus
        = some []
    ∧ (uowCall (fun u => (u, some excKeyboardInterrupt)) uowDemo).1.heap
        = uowDemo.heap := by
  decide

/-- C2 (amended): when the scope body raises, the error is re-raised to the
caller, the bus's received log is untouched (no events published), the heap is
untouched (every tracked aggregate keeps its pending events — nothing is
collected), and the committed flag is whatever the body left; `rollback` is
invoked exactly once when the error derives from `Exception` (the class the
`except` clause names), and not at all when it does not (e.g.
`KeyboardInterrupt`). -/
theorem C2_exception_rollback_once_no_publish
    (body : UoWState → UoWState × Option PyErr) (u u1 : UoWState) (exc : PyErr)
    (hbody : body u = (u1, some exc)) :
    (uowCall body u).2 = some exc
    ∧ (uowCall body u).1._event_bus = u1._event_bus
    ∧ (uowCall body u).1.heap = u1.heap
    ∧ (uowCall body u).1.committed = u1.committed
    ∧ (isinstance exc.ty exceptionClass = true →
        (uowCall body u).1.rollbackCalls = u1.rollbackCalls + 1)
    ∧ (isinstance exc.ty exceptionClass = false →
        (uowCall body u).1.rollbackCalls = u1.rollbackCalls) := by
  by_cases hc : isinstance exc.ty exceptionClass <;>
    simp [uowCall, hbody, hc, UoWState.rollback]

/-- Witness for C2 at the concrete scope `uowDemo` with a body raising a
`ValueError`. -/
theorem C2_exception_witness :
    ((fun u => (u, some excValueError)) uowDemo
        = (uowDemo, (some excValueError : Option PyErr)))
    ∧ ((uowCall (fun u => (u, some excValueError)) uowDemo).2
          = some excValueError
      ∧ (uowCall (fun u => (u, some excValueError)) uowDemo).1._event_bus
          = uowDemo._event_bus
      ∧ (uowCall (fun u => (u, some excValueError)) uowDemo).1.heap
          = uowDemo.heap
      ∧ (uowCall (fun u => (u, some excValueError)) uowDemo).1.committed
          = uowDemo.committed
      ∧ (isinstance excValueError.ty exceptionClass = true →
          (uowCall (fun u => (u, some excValueError)) uowDemo).1.rollbackCalls
            = uowDemo.rollbackCalls + 1)
      ∧ (isinstance excValueError.ty exceptionClass = false →
          (uowCall (fun u => (u, some excValueError)) uowDemo).1.rollbackCalls
            = uowDemo.rollbackCalls)) :=
  ⟨rfl, C2_exception_rollback_once_no_publish (fun u => (u, some excValueError))
    uowDemo uowDemo excValueError rfl⟩

/-- The aggregate (identity 7, empty buffer) created inside the C7 scenario
scope. -/
def aggProduct : Aggregate := { ty := productClass, id := 7, version := 0, events := [] }

/-- The initial unit of work for the C7 scenario: a configured bus with an
empty received log and one freshly-registered (empty) tracking repository. -/
def uowScenario : UoWState :=
  { heap := []
  , _repositories := [TrackingRepository.empty]
  , _event_bus := some []
  , committed := false
  , rollbackCalls := 0 }

/-- The C7 scope body: create the aggregate behind heap reference 0, add it to
the tracking repository, raise two freshly-constructed domain events on it
(fresh `event_id`s 0 and 1 from the supply, `entity_id` overwritten by
`raise_event`), then call `commit`. -/
def scenarioBody (u : UoWState) : UoWState × Option PyErr :=
  let h0 := heapSet u.heap 0 (Obj.agg aggProduct)
  let repo0 := match u._repositories with
    | r :: _ => r
    | [] => TrackingRepository.empty
  let repo1 := repo0.add h0 0
  let (ev1, s1) := Event.new allocatedClass 0 99
  let (ev2, _) := Event.new allocatedClass s1 99
  let h1 := match heapGet h0 0 with
    | some (Obj.agg a) =>
        heapSet h0 0 (Obj.agg ((a.raise_event ev1).raise_event ev2))
    | _ => h0
  (UoWState.commit { u with heap := h1, _repositories := [repo1] }, none)

/-- C7: committing that scope hands the bus exactly two events, each carrying
a distinct generated `event_id`, and each with `entity_id` equal to the
aggregate's identity (stamped by `raise_event`). -/
theorem C7_commit_publishes_two_unique_events :
    (uowCall scenarioBody uowScenario).2 = none
    ∧ (uowCall scenarioBody uowScenario).1.committed = true
    ∧ (uowCall scenarioBody uowScenario).1._event_bus
        = some [⟨allocatedClass, 0, 7⟩, ⟨allocatedClass, 1, 7⟩]
    ∧ (((uowCall scenarioBody uowScenario).1._event_bus).getD []).length = 2
    ∧ ((((uowCall scenarioBody uowScenario).1._event_bus).getD []).map
        Event.event_id).Nodup
    ∧ (∀ e ∈ ((uowCall scenarioBody uowScenario).1._event_bus).getD [],
        e.entity_id = aggProduct.id) := by
  decide

/-- C8: starting from a fresh tracking repository over a heap where `ra` and
`rb` refer to entities with distinct set keys and distinct identities,
`add(a)`, `add(b)` track exactly `{a, b}` in insertion order; `get(a.id)`
finds `a` through the wrapped repository and re-inserts it into the tracked
set with set semantics, leaving the snapshot still exactly `{a, b}`; and a
further repeated `get(a.id)` adds no duplicate either.  (`tracked` returns
`self._tracked.copy()`; the model's value semantics make the snapshot an
actual copy, so mutating it cannot affect later tracking.) -/
theorem C8_tracking_tracks_each_entity_once
    (h : Heap) (ra rb : Ref) (oa ob : Obj)
    (hra : heapGet h ra = some oa) (hrb : heapGet h rb = some ob)
    (hkey : oa.setKey ≠ ob.setKey) (hid : oa.id ≠ ob.id) :
    ((TrackingRepository.empty.add h ra).add h rb).tracked = [ra, rb]
    ∧ ((((TrackingRepository.empty.add h ra).add h rb).get h oa.id).2
        = some ra)
    ∧ ((((TrackingRepository.empty.add h ra).add h rb).get h oa.id).1).tracked
        = [ra, rb]
    ∧ ((((((TrackingRepository.empty.add h ra).add h rb).get h oa.id).1).get
          h oa.id).1).tracked = [ra, rb] := by
  simp [TrackingRepository.empty, TrackingRepository.add, TrackingRepository.get,
    TrackingRepository.tracked, BaseRepo.add, BaseRepo.get, trackedInsert,
    dictSet, dictGet, hra, hrb, hkey, hid]

/-- A second sample entity with identity 6. -/
def entB : Entity := ⟨baseClass, 6⟩

/-- A heap with the two sample entities behind references 0 and 1. -/
def demoHeap : Heap := [(0, Obj.ent entA), (1, Obj.ent entB)]

/-- Witness for C8 on the concrete heap `demoHeap`. -/
theorem C8_tracking_witness :
    (heapGet demoHeap 0 = some (Obj.ent entA)
      ∧ heapGet demoHeap 1 = some (Obj.ent entB)
      ∧ (Obj.ent entA).setKey ≠ (Obj.ent entB).setKey
      ∧ (Obj.ent entA).id ≠ (Obj.ent entB).id)
    ∧ (((TrackingRepository.empty.add demoHeap 0).add demoHeap 1).tracked
        = [0, 1]
      ∧ ((((TrackingRepository.empty.add demoHeap 0).add demoHeap 1).get
            demoHeap (Obj.ent entA).id).2 = some 0)
      ∧ (((((TrackingRepository.empty.add demoHeap 0).add demoHeap 1).get
            demoHeap (Obj.ent entA).id).1).tracked = [0, 1])
      ∧ ((((((TrackingRepository.empty.add demoHeap 0).add demoHeap 1).get
            demoHeap (Obj.ent entA).id).1).get demoHeap
              (Obj.ent entA).id).1).tracked = [0, 1]) :=
  ⟨⟨by decide, by decide, by decide, by decide⟩,
    C8_tracking_tracks_each_entity_once demoHeap 0 1 (Obj.ent entA)
      (Obj.ent entB) (by decide) (by decide) (by decide) (by decide)⟩

/-- The registration step shared by both registries in
`bloom/events/event_bus.py`:
`if event_type not in self.handlers: self.handlers[event_type] = []` followed
by `self.handlers[event_type].append(handler)`. -/
def multiDictAppend {K : Type} [DecidableEq K] {α : Type}
    (d : List (K × List α)) (k : K) (v : α) : List (K × List α) :=
  let hs := match dictGet d k with
    | none => []
    | some hs => hs
  dictSet d k (hs ++ [v])

theorem multiDict_foldl_lookup {K : Type} [DecidableEq K] {α : Type}
    (regs : List (K × α)) (d0 : List (K × List α)) (t : K) :
    dictGet (regs.foldl (fun d p => multiDictAppend d p.1 p.2) d0) t
      = match dictGet d0 t with
        | some hs0 => some (hs0 ++ (regs.filter (fun p => p.1 == t)).map (·.2))
        | none =>
            if (regs.filter (fun p => p.1 == t)).isEmpty then none
            else some ((regs.filter (fun p => p.1 == t)).map (·.2)) := by
  induction regs generalizing d0 with
  | nil => cases hd : dictGet d0 t <;> simp [hd]
  | cons p rest ih =>
      rw [List.foldl_cons, ih]
      by_cases hpt : p.1 = t
      · subst hpt
        have hfilter :
            ((p :: rest).filter (fun q => q.1 == p.1))
              = p :: rest.filter (fun q => q.1 == p.1) :=
          List.filter_cons_of_pos (by simp)
        cases hd : dictGet d0 p.1 with
        | none =>
            have hreg : dictGet (multiDictAppend d0 p.1 p.2) p.1 = some [p.2] := by
              simp [multiDictAppend, hd, dictGet_dictSet_self]
            rw [hreg, hfilter]
            simp
        | some hs0 =>
            have hreg : dictGet (multiDictAppend d0 p.1 p.2) p.1
                = some (hs0 ++ [p.2]) := by
              simp [multiDictAppend, hd, dictGet_dictSet_self]
            rw [hreg, hfilter]
            simp
      · have hne : t ≠ p.1 := fun hEq => hpt hEq.symm
        have hreg : dictGet (multiDictAppend d0 p.1 p.2) t = dictGet d0 t := by
          unfold multiDictAppend
          exact dictGet_dictSet_ne _ _ _ _ hne
        have hfilter :
            ((p :: rest).filter (fun q => q.1 == t))
              = rest.filter (fun q => q.1 == t) :=
          List.filter_cons_of_neg (by simp [hpt])
        rw [hreg, hfilter]

/-- A synchronous event handler: an atomic transition on an observation state
`σ` that either succeeds or raises an exception. -/
abbrev SyncHandler (σ : Type) := Event → σ → Except PyErr σ

/-- Model of `HandlersRegistry` from `bloom/events/event_bus.py`: a dict from event
class to the list of handlers registered for it. -/
structure HandlersRegistry (σ : Type) where
  handlers : List (PyType × List (SyncHandler σ))

/-- Model of `HandlersRegistry.register`: appends the handler to the per-type list
(insertion order preserved, duplicates allowed). -/
def HandlersRegistry.register {σ : Type} (reg : HandlersRegistry σ)
    (event_type : PyType) (handler : SyncHandler σ) : HandlersRegistry σ :=
  ⟨multiDictAppend reg.handlers event_type handler⟩

/-- The handler loop of `HandlersRegistry.handle`: each handler runs in order;
an exception from one of them propagates at once, so the remaining handlers
are never invoked (any state effects already applied persist). -/
def runHandlers {σ : Type} :
    List (SyncHandler σ) → Event → σ → σ × Option PyErr
  | [], _, s => (s, none)
  | hd :: tl, ev, s =>
      match hd ev s with
      | .error e => (s, some e)
      | .ok s2 => runHandlers tl ev s2

/-- Model of `HandlersRegistry.handle`: `event_class = type(event)`;
`if event_class in self.handlers:` run all handlers registered under the
event's exact runtime class. -/
def HandlersRegistry.handle {σ : Type} (reg : HandlersRegistry σ)
    (event : Event) (s : σ) : σ × Option PyErr :=
  match dictGet reg.handlers event.ty with
  | none => (s, none)
  | some hs => runHandlers hs event s

/-- A registry built by a sequence of `register` calls, starting empty. -/
def registryOfList {σ : Type} (regs : List (PyType × SyncHandler σ)) :
    HandlersRegistry σ :=
  regs.foldl (fun r p => r.register p.1 p.2) ⟨[]⟩

theorem registryOfList_handlers {σ : Type}
    (regs : List (PyType × SyncHandler σ)) :
    (registryOfList regs).handlers
      = regs.foldl (fun d p => multiDictAppend d p.1 p.2) [] := by
  suffices h : ∀ r0 : HandlersRegistry σ,
      (regs.foldl (fun r p => r.register p.1 p.2) r0).handlers
        = regs.foldl (fun d p => multiDictAppend d p.1 p.2) r0.handlers from
    h ⟨[]⟩
  induction regs with
  | nil => intro r0; rfl
  | cons p rest ih => intro r0; exact ih (r0.register p.1 p.2)

theorem runHandlers_append {σ : Type} (hs1 hs2 : List (SyncHandler σ))
    (ev : Event) (s : σ) :
    runHandlers (hs1 ++ hs2) ev s
      = match runHandlers hs1 ev s with
        | (s1, none) => runHandlers hs2 ev s1
        | (s1, some e) => (s1, some e) := by
  induction hs1 generalizing s with
  | nil => simp [runHandlers]
  | cons hd tl ih =>
      cases hres : hd ev s with
      | error e => simp [runHandlers, hres]
      | ok s2 => simp [runHandlers, hres, ih]

/-- C9: the synchronous bus dispatches exactly the handlers registered for the
event's exact runtime class, in registration order with duplicates kept (the
handle loop is `runHandlers` on the registration list filtered by that exact
class); when no registration matches the exact class the state is untouched
and nothing is raised — even when handlers are registered for an ancestor
class of the event's (no polymorphic matching); and when the handlers before
some failing handler succeed, its exception propagates to the caller with the
remaining handlers never invoked. -/
theorem C9_sync_bus_exact_type_in_order_aborts (σ : Type)
    (regs : List (PyType × SyncHandler σ)) (ev : Event) (s : σ) :
    (HandlersRegistry.handle (registryOfList regs) ev s
      = runHandlers ((regs.filter (fun p => p.1 == ev.ty)).map (·.2)) ev s)
    ∧ ((∀ p ∈ regs, p.1 ≠ ev.ty) →
        HandlersRegistry.handle (registryOfList regs) ev s = (s, none))
    ∧ (∀ (hs1 hs2 : List (SyncHandler σ)) (hbad : SyncHandler σ)
        (s1 : σ) (e : PyErr),
        runHandlers hs1 ev s = (s1, none) → hbad ev s1 = Except.error e →
        runHandlers (hs1 ++ hbad :: hs2) ev s = (s1, some e)) := by
  have hdisp : HandlersRegistry.handle (registryOfList regs) ev s
      = runHandlers ((regs.filter (fun p => p.1 == ev.ty)).map (·.2)) ev s := by
    unfold HandlersRegistry.handle
    rw [registryOfList_handlers, multiDict_foldl_lookup]
    by_cases hempty : ((regs.filter (fun p => p.1 == ev.ty)).isEmpty)
    · have hnil : regs.filter (fun p => p.1 == ev.ty) = [] :=
        List.isEmpty_iff.mp hempty
      simp [dictGet, hempty, hnil, runHandlers]
    · simp [dictGet, hempty]
  refine ⟨hdisp, ?_, ?_⟩
  · intro hnone
    have hnil : regs.filter (fun p => p.1 == ev.ty) = [] :=
      List.filter_eq_nil_iff.mpr (by
        intro p hp
        simpa using hnone p hp)
    rw [hdisp, hnil]
    rfl
  · intro hs1 hs2 hbad s1 e h1 hb
    rw [runHandlers_append, h1]
    simp [runHandlers, hb]

/-- The modelled event class `MyEvent(Event)`. -/
def myEventClass : PyType := ⟨6, [6]⟩

/-- The modelled event subclass `SubEvent(MyEvent)`. -/
def subEventClass : PyType := ⟨7, [7, 6]⟩

/-- An event whose exact runtime class is `MyEvent`. -/
def evMain : Event := ⟨myEventClass, 0, 0⟩

/-- An event whose exact runtime class is `SubEvent` (its ancestors include
`MyEvent`). -/
def evSub : Event := ⟨subEventClass, 0, 0⟩

/-- A handler appending 1 to the observation list. -/
def hAppend1 : SyncHandler (List Nat) := fun _ s => Except.ok (s ++ [1])

/-- A handler appending 2 to the observation list. -/
def hAppend2 : SyncHandler (List Nat) := fun _ s => Except.ok (s ++ [2])

/-- The `ValueError` raised by the failing sync handler. -/
def errBoom : PyErr := ⟨valueErrorClass, 7⟩

/-- A handler that raises `errBoom`. -/
def hBoom : SyncHandler (List Nat) := fun _ _ => Except.error errBoom

/-- Witness for C9: handlers registered for `MyEvent` are not dispatched to a
`SubEvent` instance (exact-type matching), and a failing handler after one
successful handler aborts the remaining one with the successful prefix's
effect kept. -/
theorem C9_sync_bus_witness :
    (∀ p ∈ [(myEventClass, hAppend1), (myEventClass, hAppend2)], p.1 ≠ evSub.ty)
    ∧ HandlersRegistry.handle
        (registryOfList [(myEventClass, hAppend1), (myEventClass, hAppend2)])
        evSub [] = ([], none)
    ∧ runHandlers [hAppend1] evMain [] = ([1], none)
    ∧ hBoom evMain [1] = Except.error errBoom
    ∧ runHandlers ([hAppend1] ++ hBoom :: [hAppend2]) evMain []
        = ([1], some errBoom) := by
  refine ⟨?_, ?_, rfl, rfl, ?_⟩
  · intro p hp
    rcases List.mem_cons.mp hp with h1 | h1
    · rw [h1]; decide
    · rcases List.mem_cons.mp h1 with h2 | h2
      · rw [h2]; decide
      · cases h2
  · exact (C9_sync_bus_exact_type_in_order_aborts (List Nat)
      [(myEventClass, hAppend1), (myEventClass, hAppend2)] evSub []).2.1
      (by
        intro p hp
        rcases List.mem_cons.mp hp with h1 | h1
        · rw [h1]; decide
        · rcases List.mem_cons.mp h1 with h2 | h2
          · rw [h2]; decide
          · cases h2)
  · exact (C9_sync_bus_exact_type_in_order_aborts (List Nat)
      [(myEventClass, hAppend1), (myEventClass, hAppend2)] evMain []).2.2
      [hAppend1] [hAppend2] hBoom [1] errBoom rfl rfl

/-- An asynchronous event handler: a coroutine modelled by its overall effect
on the observation state `σ` — a transition when it completes normally, an
exception value when it fails (a failing handler applies no transition). -/
abbrev AsyncHandler (σ : Type) := Event → σ → Except PyErr σ

/-- Model of `AsyncHandlersRegistry` from `bloom/events/event_bus.py`. -/
structure AsyncHandlersRegistry (σ : Type) where
  handlers : List (PyType × List (AsyncHandler σ))

/-- Model of `AsyncHandlersRegistry.register`: appends the handler to the per-type
list. -/
def AsyncHandlersRegistry.register {σ : Type} (reg : AsyncHandlersRegistry σ)
    (event_type : PyType) (handler : AsyncHandler σ) : AsyncHandlersRegistry σ :=
  ⟨multiDictAppend reg.handlers event_type handler⟩

/-- The `asyncio.gather(..., return_exceptions=True)` dispatch of
`AsyncHandlersRegistry.handle`: every handler runs to completion before
`handle` returns; a failing handler's exception is captured into the returned
log (where the source then logs it) instead of propagating, and it does not
prevent the remaining handlers from running and applying their effects.  The
cooperative interleaving of suspension points is modelled by applying each
completing handler's overall transition in task-creation order. -/
def gatherRun {σ : Type} :
    List (AsyncHandler σ) → Event → σ → σ × List PyErr
  | [], _, s => (s, [])
  | hd :: tl, ev, s =>
      match hd ev s with
      | .ok s2 => gatherRun tl ev s2
      | .error e =>
          let (s2, errs) := gatherRun tl ev s
          (s2, e :: errs)

/-- Model of `AsyncHandlersRegistry.handle`: dispatch on the event's exact runtime
class, gather all its handlers, return normally with the captured-failure
log. -/
def AsyncHandlersRegistry.handle {σ : Type} (reg : AsyncHandlersRegistry σ)
    (event : Event) (s : σ) : σ × List PyErr :=
  match dictGet reg.handlers event.ty with
  | none => (s, [])
  | some hs => gatherRun hs event s

/-- An async registry built by a sequence of `register` calls, starting
empty. -/
def asyncRegistryOfList {σ : Type} (regs : List (PyType × AsyncHandler σ)) :
    AsyncHandlersRegistry σ :=
  regs.foldl (fun r p => r.register p.1 p.2) ⟨[]⟩

theorem asyncRegistryOfList_handlers {σ : Type}
    (regs : List (PyType × AsyncHandler σ)) :
    (asyncRegistryOfList regs).handlers
      = regs.foldl (fun d p => multiDictAppend d p.1 p.2) [] := by
  suffices h : ∀ r0 : AsyncHandlersRegistry σ,
      (regs.foldl (fun r p => r.register p.1 p.2) r0).handlers
        = regs.foldl (fun d p => multiDictAppend d p.1 p.2) r0.handlers from
    h ⟨[]⟩
  induction regs with
  | nil => intro r0; rfl
  | cons p rest ih => intro r0; exact ih (r0.register p.1 p.2)

theorem gatherRun_append {σ : Type} (hs1 hs2 : List (AsyncHandler σ))
    (ev : Event) (s : σ) :
    gatherRun (hs1 ++ hs2) ev s
      = ((gatherRun hs2 ev (gatherRun hs1 ev s).1).1,
         (gatherRun hs1 ev s).2 ++ (gatherRun hs2 ev (gatherRun hs1 ev s).1).2) := by
  induction hs1 generalizing s with
  | nil => simp [gatherRun]
  | cons hd tl ih =>
      cases hres : hd ev s with
      | ok s2 => simp [gatherRun, hres, ih]
      | error e => simp [gatherRun, hres, ih]

/-- C10: the asynchronous bus runs exactly the handlers registered for the
event's exact runtime class; it always returns (normally) with the log of
captured failures rather than raising; a prefix's failures never prevent the
remaining handlers from running and applying their effects (the run of an
appended list is the composition of the runs, failures of both parts
collected); and in the spec's two-handler scenario — one handler failing, the
other succeeding — the succeeding handler's effect is applied and the failure
is recorded in the log, not propagated. -/
theorem C10_async_bus_failures_logged_not_propagated (σ : Type)
    (regs : List (PyType × AsyncHandler σ)) (ev : Event) (s : σ) :
    (AsyncHandlersRegistry.handle (asyncRegistryOfList regs) ev s
      = gatherRun ((regs.filter (fun p => p.1 == ev.ty)).map (·.2)) ev s)
    ∧ (∀ hs1 hs2 : List (AsyncHandler σ),
        gatherRun (hs1 ++ hs2) ev s
          = ((gatherRun hs2 ev (gatherRun hs1 ev s).1).1,
             (gatherRun hs1 ev s).2
               ++ (gatherRun hs2 ev (gatherRun hs1 ev s).1).2))
    ∧ (∀ (hfail hok : AsyncHandler σ) (e : PyErr) (s2 : σ),
        hfail ev s = Except.error e → hok ev s = Except.ok s2 →
        AsyncHandlersRegistry.handle
          (asyncRegistryOfList [(ev.ty, hfail), (ev.ty, hok)]) ev s
          = (s2, [e])) := by
  have hdisp : AsyncHandlersRegistry.handle (asyncRegistryOfList regs) ev s
      = gatherRun ((regs.filter (fun p => p.1 == ev.ty)).map (·.2)) ev s := by
    unfold AsyncHandlersRegistry.handle
    rw [asyncRegistryOfList_handlers, multiDict_foldl_lookup]
    by_cases hempty : ((regs.filter (fun p => p.1 == ev.ty)).isEmpty)
    · have hnil : regs.filter (fun p => p.1 == ev.ty) = [] :=
        List.isEmpty_iff.mp hempty
      simp [dictGet, hempty, hnil, gatherRun]
    · simp [dictGet, hempty]
  refine ⟨hdisp, fun hs1 hs2 => gatherRun_append hs1 hs2 ev s, ?_⟩
  · intro hfail hok e s2 hf hk
    have h2 : AsyncHandlersRegistry.handle
        (asyncRegistryOfList [(ev.ty, hfail), (ev.ty, hok)]) ev s
        = gatherRun [hfail, hok] ev s := by
      unfold AsyncHandlersRegistry.handle
      rw [asyncRegistryOfList_handlers, multiDict_foldl_lookup]
      simp [dictGet]
    rw [h2]
    simp [gatherRun, hf, hk]

/-- An async handler appending 5 to the observation list. -/
def hAsyncOk : AsyncHandler (List Nat) := fun _ s => Except.ok (s ++ [5])

/-- The `ValueError` raised by the failing async handler. -/
def errAsyncBoom : PyErr := ⟨valueErrorClass, 9⟩

/-- An async handler that fails with `errAsyncBoom`. -/
def hAsyncBoom : AsyncHandler (List Nat) := fun _ _ => Except.error errAsyncBoom

/-- Witness for C10: with a failing handler registered before a succeeding
one, `handle` returns normally, the succeeding handler's effect is applied,
and the failure is recorded in the log. -/
theorem C10_async_bus_witness :
    hAsyncBoom evMain [] = Except.error errAsyncBoom
    ∧ hAsyncOk evMain [] = Except.ok [5]
    ∧ AsyncHandlersRegistry.handle
        (asyncRegistryOfList [(evMain.ty, hAsyncBoom), (evMain.ty, hAsyncOk)])
        evMain [] = ([5], [errAsyncBoom]) :=
  ⟨rfl, rfl,
    (C10_async_bus_failures_logged_not_propagated (List Nat) [] evMain []).2.2
      hAsyncBoom hAsyncOk errAsyncBoom [5] rfl rfl⟩
